import Mathlib

/-!
Verification of the celestial-echo bot core (src/main.rs, src/schema.rs).

The embedding models the mention-resolution and deferred-reply pipeline:
`build_event` (gateway-response classification), `process_new_mentions`,
`is_tweet_ignored` / `ignore_tweet` (dedup guard), and `send_replies`
(deferred-reply sweep), over an explicit store state.

Modelling conventions:
- Strings are `List Char` (Rust `&str` after lossy UTF-8 decode); `byteLen`
  is the UTF-8 byte length that Rust `String::len` returns.
- `f64` values are modelled as exact rational numbers carried as an integer
  numerator over a positive natural denominator (`Frac`).  Every arithmetic
  step of the source is exact at the inputs used in the concrete theorems
  below; IEEE-754 rounding itself is outside this embedding (see C2).
- External effects (gateway process, network posts, store I/O failures) are
  inputs: each one is an explicit outcome flag, so the control flow of the
  source can be followed deterministically.
- Timestamps (`chrono::NaiveDateTime`) are whole milliseconds since the
  epoch as `Int`; `chrono::Duration::milliseconds` is integer addition.
-/

set_option maxRecDepth 40000

deriving instance DecidableEq for Except

namespace CelestialEcho

/-! ### Exact numeric model of `f64` values -/

/-- An exact rational, numerator over (positive, by construction) natural
denominator.  No normalisation is performed; all operations below are
value-level, i.e. independent of the chosen representative. -/
structure Frac where
  num : Int
  den : Nat
deriving DecidableEq

def Frac.ofInt (n : Int) : Frac := ⟨n, 1⟩

def Frac.mul (a b : Frac) : Frac := ⟨a.num * b.num, a.den * b.den⟩

def Frac.sub (a b : Frac) : Frac := ⟨a.num * b.den - b.num * a.den, a.den * b.den⟩

/-- Strict value comparison `a < b` (cross multiplication; denominators positive). -/
def Frac.blt (a b : Frac) : Bool := a.num * (b.den : Int) < b.num * (a.den : Int)

/-- Value equality of two representatives. -/
def Frac.valEq (a b : Frac) : Prop := a.num * (b.den : Int) = b.num * (a.den : Int)

instance (a b : Frac) : Decidable (a.valEq b) :=
  inferInstanceAs (Decidable (_ = _))

/-- Truncation toward zero, the rounding direction of a Rust `as` cast from
`f64` to an integer type (before saturation). -/
def Frac.truncToInt (a : Frac) : Int := Int.tdiv a.num (a.den : Int)

def i64Min : Int := -(2 ^ 63)

def i64Max : Int := 2 ^ 63 - 1

/-- Rust `f64 as i64`: truncate toward zero, saturating at the `i64` range. -/
def Frac.toI64 (a : Frac) : Int :=
  let t := a.truncToInt
  if t < i64Min then i64Min else if i64Max < t then i64Max else t

/-- Rust `f64 as u32`: truncate toward zero, saturating at `[0, 2^32 - 1]`. -/
def Frac.toU32 (a : Frac) : Nat :=
  let t := a.truncToInt
  if t < 0 then 0 else if (2 ^ 32 - 1 : Int) < t then 2 ^ 32 - 1 else t.toNat

/-- Rust `%` on `f64`: `a - b * trunc(a / b)` (remainder with the sign of `a`). -/
def Frac.fmod (a b : Frac) : Frac :=
  let q := Int.tdiv (a.num * (b.den : Int)) ((a.den : Int) * b.num)
  a.sub (b.mul (Frac.ofInt q))

/-- Round to nearest integer, ties to even — the rounding Rust float
formatting applies to the exact value at a given decimal precision. -/
def Frac.roundHalfEven (a : Frac) : Int :=
  let d : Int := (a.den : Int)
  let fl := Int.fdiv a.num d
  let r2 := 2 * (a.num - fl * d)
  if r2 < d then fl else if d < r2 then fl + 1 else if fl % 2 = 0 then fl else fl + 1

/-- Round half up to the nearest integer (`⌊x + 1/2⌋`). Used only to state
what "rounded to nearest" would give where a claim asserts it. -/
def Frac.roundNearest (a : Frac) : Int :=
  Int.fdiv (2 * a.num + (a.den : Int)) (2 * (a.den : Int))

/-! ### String helpers (Rust `str` operations on `List Char`) -/

/-- UTF-8 byte length, what Rust `String::len` / `str::len` return. -/
def byteLen (l : List Char) : Nat := (l.map Char.utf8Size).sum

/-- Rust `str::trim`. -/
def rustTrim (l : List Char) : List Char :=
  ((l.dropWhile Char.isWhitespace).reverse.dropWhile Char.isWhitespace).reverse

/-- Split at every newline character (keeping empty segments). -/
def splitOnNl : List Char → List (List Char)
  | [] => [[]]
  | '\n' :: rest => [] :: splitOnNl rest
  | c :: rest =>
    match splitOnNl rest with
    | [] => [[c]]
    | p :: ps => (c :: p) :: ps

def stripCR (l : List Char) : List Char :=
  if l.reverse.head? = some '\x0d' then l.dropLast else l

/-- Rust `str::lines`: split on `\n`, drop a final empty segment produced by
a trailing newline, strip a trailing `\x0d` from each line.  (Both call
sites apply this after `trim`, so the bare-final-`\x0d` corner where Rust
would keep the `\x0d` cannot arise.) -/
def rustLines (l : List Char) : List (List Char) :=
  let parts := splitOnNl l
  let parts := if parts.getLast? = some [] then parts.dropLast else parts
  parts.map stripCR

def splitWSGo : List Char → List Char → List (List Char)
  | [], cur => if cur.isEmpty then [] else [cur.reverse]
  | c :: rest, cur =>
    if c.isWhitespace then
      if cur.isEmpty then splitWSGo rest [] else cur.reverse :: splitWSGo rest []
    else splitWSGo rest (c :: cur)

/-- Rust `str::split_whitespace`. -/
def splitWhitespaceL (l : List Char) : List (List Char) := splitWSGo l []

def digitsToNat (l : List Char) : Nat :=
  l.foldl (fun a c => a * 10 + (c.toNat - ('0').toNat)) 0

/-- Rust `str::parse::<f64>` restricted to finite decimal literals
(`[+-]? digits [. digits]? [eE [+-]? digits]?`, at least one mantissa
digit), read as an exact rational.  `inf` / `NaN` forms are not modelled
(the gateway emits plain decimals). -/
def parseF64 (l : List Char) : Option Frac :=
  let sr : Int × List Char :=
    match l with
    | '+' :: r => (1, r)
    | '-' :: r => (-1, r)
    | r => (1, r)
  let sgn := sr.1
  let r0 := sr.2
  let ip := r0.takeWhile Char.isDigit
  let r1 := r0.dropWhile Char.isDigit
  let fr : List Char × List Char :=
    match r1 with
    | '.' :: r => (r.takeWhile Char.isDigit, r.dropWhile Char.isDigit)
    | r => ([], r)
  let fp := fr.1
  let r2 := fr.2
  if ip.isEmpty && fp.isEmpty then none
  else
    let base : Frac := ⟨sgn * ((digitsToNat ip : Int) * 10 ^ fp.length + digitsToNat fp), 10 ^ fp.length⟩
    match r2 with
    | [] => some base
    | e :: r3 =>
      if e = 'e' ∨ e = 'E' then
        let er : Bool × List Char :=
          match r3 with
          | '+' :: rr => (true, rr)
          | '-' :: rr => (false, rr)
          | rr => (true, rr)
        let ed := er.2.takeWhile Char.isDigit
        if ed.isEmpty || !(er.2.dropWhile Char.isDigit).isEmpty then none
        else if er.1 then some ⟨base.num * 10 ^ digitsToNat ed, base.den⟩
        else some ⟨base.num, base.den * 10 ^ digitsToNat ed⟩
      else none

def padZeros (p : Nat) (s : List Char) : List Char := List.replicate (p - s.length) '0' ++ s

/-- Rust `format!` with `{:.p}` on an `f64` whose exact value is `a`:
round the value to `p` decimal places (ties to even) and print with
exactly `p` fractional digits. -/
def fmtFixed (p : Nat) (a : Frac) : List Char :=
  let n := Frac.roundHalfEven (a.mul ⟨10 ^ p, 1⟩)
  let sgn : List Char := if a.num < 0 then ['-'] else []
  if p = 0 then sgn ++ (Nat.repr n.natAbs).data
  else
    sgn ++ (Nat.repr (n.natAbs / 10 ^ p)).data ++ '.' :: padZeros p (Nat.repr (n.natAbs % 10 ^ p)).data

/-! ### The candidate-line pattern of the ambiguous (exit 2) branch

The source matches each line against the regex
` *(-?\d+) *(.*?)(\(|  |$)` with `Regex::captures` (leftmost match, lazy
middle group; `\d` and `str::trim` are modelled at ASCII granularity,
which is exact for every input the gateway protocol
describes).  Operationally on a line this is: find the leftmost start of
`-?` followed by at least one digit (an optional all-spaces run before it is
absorbed by the leading ` *`); group 1 is that optional sign plus the
maximal digit run; then a maximal run of spaces is skipped; group 2 is the
shortest run of characters ending at a `(`, at two consecutive spaces, or at
the end of the line. -/

/-- Leftmost `-?\d+`: returns (group 1, remainder after the digits). -/
def findNum : List Char → Option (List Char × List Char)
  | [] => none
  | c :: rest =>
    if c.isDigit then some (c :: rest.takeWhile Char.isDigit, rest.dropWhile Char.isDigit)
    else if c = '-' then
      match rest with
      | [] => none
      | d :: rest2 =>
        if d.isDigit then
          some ('-' :: d :: rest2.takeWhile Char.isDigit, rest2.dropWhile Char.isDigit)
        else findNum rest
    else findNum rest

/-- Lazy group 2: everything before the first `(`, double space, or line end. -/
def takeUntilTerm : List Char → List Char
  | [] => []
  | '(' :: _ => []
  | ' ' :: ' ' :: _ => []
  | c :: rest => c :: takeUntilTerm rest

/-- `captures` of the candidate pattern on one line: `some (group1, group2)`
iff the line matches (i.e. contains `-?\d+` anywhere). -/
def matchCandidate (line : List Char) : Option (List Char × List Char) :=
  match findNum line with
  | none => none
  | some (g1, rest) => some (g1, takeUntilTerm (rest.dropWhile (fun c => c = ' ')))

def pickHeader : List Char := ("Pick a number:\n".data)

/-- `format!("{}: {}\n", id, label.trim())`. -/
def candLine (g1 g2 : List Char) : List Char :=
  g1 ++ (": ".data) ++ rustTrim g2 ++ ['\n']

/-- The exit-2 message accumulation loop over the lines of stdout: every
line must match; a formatted line is appended only when the accumulated
byte length would stay within 280. -/
def ambiguousGo : List (List Char) → List Char → Except (List Char) (List Char)
  | [], msg => .ok msg
  | line :: rest, msg =>
    match matchCandidate line with
    | none => .error (("No match found in \x27".data) ++ line ++ ['\x27'])
    | some (g1, g2) =>
      let cl := candLine g1 g2
      ambiguousGo rest (if byteLen msg + byteLen cl ≤ 280 then msg ++ cl else msg)

def ambiguousMessage (lines : List (List Char)) : Except (List Char) (List Char) :=
  ambiguousGo lines pickHeader

/-! ### Data model -/

/-- An inbound mention: id (`u64`), body text, creation timestamp. -/
structure TweetIn where
  id : Nat
  text : List Char
  created_at : Int
deriving DecidableEq

/-- The `EventForm` insertable row built by `build_event`. -/
structure EventForm where
  tweet_id : Int
  celestial_body : List Char
  replied : Bool
  deadline : Int
  round_trip : Frac
deriving DecidableEq

/-- The captured output of the ephemeris gateway process. -/
structure GatewayOut where
  code : Option Int
  stdout : List Char
deriving DecidableEq

/-- `enum Response`: either a pending-event row to insert, or an immediate
reply draft. -/
inductive Response where
  | record (f : EventForm)
  | reply (msg : List Char)
deriving DecidableEq

/-- Rust `u64 as i64` (two's-complement reinterpretation). -/
def u64AsI64 (n : Nat) : Int := if n < 2 ^ 63 then (n : Int) else (n : Int) - 2 ^ 64

/-- Rust `i64 as u64`. -/
def i64AsU64 (n : Int) : Nat := (n % (2 ^ 64 : Int)).toNat

def mentionTag : List Char := ("@celestial_echo".data)

/-- Body extraction: trim, strip a leading bot mention, trim again. -/
def stripMention (text : List Char) : List Char :=
  let body := rustTrim text
  if mentionTag.isPrefixOf body then rustTrim (body.drop mentionTag.length) else body

def unrecognizedReply : List Char :=
  ("Sorry, I don\x27t recognize that location.\n\nConsult JPL HORIZONS for valid options: https://ssd.jpl.nasa.gov/?horizons\n".data)

/-- `build_event` after the gateway process ran: classify `(exit code,
stdout)` into a pending-event row (exit 0), a fixed rejection reply (exit
1), a disambiguation reply (exit 2), or an error. -/
def buildEvent (t : TweetIn) (g : GatewayOut) : Except (List Char) Response :=
  let body := stripMention t.text
  if g.code = some 0 then
    match (rustLines (rustTrim g.stdout)).head? with
    | none => .error ("HORIZON response missing distance line".data)
    | some line =>
      match (splitWhitespaceL line)[2]? with
      | none => .error (("Missing distance field: \x27".data) ++ line ++ ['\x27'])
      | some tok =>
        match parseF64 tok with
        | none => .error ("invalid float literal".data)
        | some dist =>
          let travel_secs := (dist.mul (Frac.ofInt 60)).mul (Frac.ofInt 2)
          let travel_ms := Frac.toI64 (travel_secs.mul (Frac.ofInt 1000))
          .ok (.record
            { tweet_id := u64AsI64 t.id
              celestial_body := body
              replied := false
              deadline := t.created_at + travel_ms
              round_trip := travel_secs })
  else if g.code = some 1 then
    .ok (.reply unrecognizedReply)
  else if g.code = some 2 then
    match ambiguousMessage (rustLines (rustTrim g.stdout)) with
    | .error e => .error e
    | .ok msg => .ok (.reply msg)
  else
    .error ("Unrecognized exit code".data)

/-- The distance the exit-0 branch reads from stdout: third
whitespace-separated token of the first line, parsed as a float. -/
def exit0Distance (stdout : List Char) : Option Frac :=
  (rustLines (rustTrim stdout)).head?.bind fun line =>
    ((splitWhitespaceL line)[2]?).bind parseF64

/-! ### The persisted store -/

/-- A row of the `events` table (bookkeeping timestamps `created_at` /
`updated_at` are set by store defaults outside src/ and are never read or
written by this code, so they are not modelled). -/
structure Event where
  id : Int
  tweet_id : Int
  celestial_body : List Char
  replied : Bool
  deadline : Int
  round_trip : Frac
deriving DecidableEq

/-- The store: the `events` table, the `ignored` table (as the list of its
`tweet_id` column), and the next auto-increment `events.id`. -/
structure Store where
  events : List Event
  ignored : List Int
  nextId : Int
deriving DecidableEq

/-- `diesel::insert_into(events).values(&event)`. -/
def insertEvent (s : Store) (f : EventForm) : Store :=
  { s with
    events := s.events ++
      [{ id := s.nextId
         tweet_id := f.tweet_id
         celestial_body := f.celestial_body
         replied := f.replied
         deadline := f.deadline
         round_trip := f.round_trip }]
    nextId := s.nextId + 1 }

/-- `is_tweet_ignored` on a successful lookup: a row with this
`tweet_id as i64` exists in `ignored`. -/
def isIgnored (s : Store) (tid : Nat) : Bool := s.ignored.contains (u64AsI64 tid)

/-- `ignore_tweet`: insert the id into `ignored`. -/
def markIgnored (s : Store) (tid : Nat) : Store :=
  { s with ignored := s.ignored ++ [u64AsI64 tid] }

/-- `diesel::update(events.filter(id.eq(eid))).set(replied.eq(true))`. -/
def updateReplied (s : Store) (eid : Int) : Store :=
  { s with events := s.events.map fun e => if e.id = eid then { e with replied := true } else e }

/-! ### process_new_mentions -/

/-- A successfully published post: target id (`u64`) and message. -/
abbrev Post := Nat × List Char

/-- One mention together with the outcomes of its external effects: the
gateway run (spawn error or captured output), and failure flags for the
event insert, the dedup-guard lookup, the reply post, and the
ignored-marker insert. -/
structure MentionInput where
  tweet : TweetIn
  gateway : Except (List Char) GatewayOut
  insertFails : Bool
  lookupFails : Bool
  postFails : Bool
  markFails : Bool

/-- The per-tweet body of the `process_new_mentions` loop.  Every error is
logged and the loop continues: a failed insert leaves the store unchanged;
a guard lookup error (`unwrap_or(true)`) or a positive guard hit skips the
reply; a failed post sends nothing and marks nothing; a failed marker
insert still counts the post as sent. -/
def processTweet (s : Store) (m : MentionInput) : Store × List Post :=
  match m.gateway with
  | .error _ => (s, [])
  | .ok g =>
    match buildEvent m.tweet g with
    | .error _ => (s, [])
    | .ok (.record f) => (if m.insertFails then s else insertEvent s f, [])
    | .ok (.reply msg) =>
      if m.lookupFails then (s, [])
      else if isIgnored s m.tweet.id then (s, [])
      else if m.postFails then (s, [])
      else ((if m.markFails then s else markIgnored s m.tweet.id), [(m.tweet.id, msg)])

/-- The mention-processing pass over one fetched feed. -/
def processNewMentions (s : Store) (ms : List MentionInput) : Store × List Post :=
  match ms with
  | [] => (s, [])
  | m :: rest =>
    let r1 := processTweet s m
    let r2 := processNewMentions r1.1 rest
    (r2.1, r1.2 ++ r2.2)

/-! ### send_replies -/

/-- The adaptive-precision round-trip formatting of `send_replies`
(`hr` and `min` via `as u32`, `sec` via `f64` remainder). -/
def formatReply (r : Frac) : List Char :=
  let hr := r.toU32 / 3600
  let mn := r.toU32 / 60 % 60
  let sec := r.fmod (Frac.ofInt 60)
  if r.blt (Frac.ofInt 2) then ("Round trip time: ".data) ++ fmtFixed 4 r ++ ['s']
  else if r.blt (Frac.ofInt 10) then ("Round trip time: ".data) ++ fmtFixed 3 r ++ ['s']
  else if r.blt (Frac.ofInt 60) then ("Round trip time: ".data) ++ fmtFixed 2 r ++ ['s']
  else if mn < 10 then
    ("Round trip time: ".data) ++ (Nat.repr mn).data ++ ("m ".data) ++ fmtFixed 1 sec ++ ['s']
  else if mn < 60 then
    ("Round trip time: ".data) ++ (Nat.repr mn).data ++ ("m ".data)
      ++ (Nat.repr sec.toU32).data ++ ['s']
  else
    ("Round trip time: ".data) ++ (Nat.repr hr).data ++ ("h ".data)
      ++ (Nat.repr mn).data ++ ("m".data)

/-- The rows `send_replies` loads: `replied = false` and `deadline` before
the invocation time. -/
def dueEvents (s : Store) (now : Int) : List Event :=
  s.events.filter fun e => !e.replied && decide (e.deadline < now)

/-- The result of one sweep: final store, successfully published posts in
order, and whether the sweep aborted with an error. -/
structure SweepResult where
  store : Store
  posts : List Post
  errored : Bool
deriving DecidableEq

/-- The per-event loop of `send_replies` over the pre-loaded due list.
`pf eid = true` means the reply post for the event with store id `eid`
fails (logged, loop continues); `uf eid = true` means the subsequent
`replied` update fails — the source propagates that error with `?`,
ending the loop. -/
def sweepGo (pf uf : Int → Bool) : List Event → Store → SweepResult
  | [], s => ⟨s, [], false⟩
  | e :: rest, s =>
    if pf e.id then sweepGo pf uf rest s
    else
      let post : Post := (i64AsU64 e.tweet_id, formatReply e.round_trip)
      if uf e.id then ⟨s, [post], true⟩
      else
        let r := sweepGo pf uf rest (updateReplied s e.id)
        ⟨r.store, post :: r.posts, r.errored⟩

/-- `send_replies`: load the due unreplied events, then run the reply loop. -/
def sendReplies (s : Store) (now : Int) (pf uf : Int → Bool) : SweepResult :=
  sweepGo pf uf (dueEvents s now) s

/-! ### Calendar helper (to state concrete timestamps) -/

def isLeapYear (y : Nat) : Bool := (y % 4 == 0 && !(y % 100 == 0)) || y % 400 == 0

def monthLengths (leap : Bool) : List Nat :=
  [31, if leap then 29 else 28, 31, 30, 31, 30, 31, 31, 30, 31, 30, 31]

def daysSinceEpoch (y m d : Nat) : Nat :=
  ((List.range (y - 1970)).map fun i => if isLeapYear (1970 + i) then 366 else 365).sum
    + ((monthLengths (isLeapYear y)).take (m - 1)).sum + (d - 1)

/-- The naive-UTC timestamp (in milliseconds) of a calendar date-time. -/
def mkDT (y m d h mi s : Nat) : Int :=
  ((daysSinceEpoch y m d * 86400 + h * 3600 + mi * 60 + s : Nat) : Int) * 1000

/-! ### Concrete data used by the claim theorems and witnesses -/

def c5Line1 : List Char := '1' :: ' ' :: List.replicate 240 'a'

def c5Line2 : List Char := '2' :: ' ' :: List.replicate 30 'b'

def c5Line3 : List Char := ("3 c".data)

def c10Line1 : List Char := '1' :: ' ' :: List.replicate 130 'é'

def c10Line2 : List Char := ("2 x".data)

def t5 : TweetIn := ⟨9, ("@q".data), 0⟩

def g5 : GatewayOut := ⟨some 2, ("1 Mars (".data)⟩

/-- What the spec's format table prescribes for the hours tier:
`"Round trip time: {h}h {m}m"` (stated from the spec, for comparison;
the claim takes `h = floor(r/3600)` and `m = floor(r/60) mod 60`). -/
def hoursTierFormat (h m : Nat) : List Char :=
  ("Round trip time: ".data) ++ (Nat.repr h).data ++ ("h ".data)
    ++ (Nat.repr m).data ++ ("m".data)

def t8 : TweetIn := ⟨7, ("@celestial_echo mars".data), mkDT 2020 1 1 0 0 0⟩

def g8 : GatewayOut := ⟨some 0, ("foo bar 4.5\n".data)⟩

def t4 : TweetIn := ⟨7, ("@celestial_echo io".data), 0⟩

def g4 : GatewayOut := ⟨some 0, ("foo bar 0.0078125".data)⟩

def wEvent : Event := ⟨1, 101, ("mars".data), false, 0, Frac.ofInt 540⟩

def wStore : Store := ⟨[wEvent], [], 2⟩

def s9 : Store := ⟨[⟨1, 101, ("m".data), false, 0, Frac.ofInt 1⟩], [7], 2⟩

def c7Store : Store := ⟨[], [], 1⟩

def c7Mention : MentionInput := ⟨⟨5, ("@x".data), 0⟩, .ok ⟨some 1, []⟩, false, true, false, false⟩

def e61 : Event := ⟨1, 101, ("a".data), false, 0, Frac.ofInt 100⟩

def e62 : Event := ⟨2, 102, ("b".data), false, 0, Frac.ofInt 100⟩

def s6 : Store := ⟨[e61, e62], [], 3⟩

def uf6 : Int → Bool := fun i => i == 1

def m6 : MentionInput := ⟨t8, .ok g8, true, false, false, false⟩

/-! ### Helper lemmas -/

theorem byteLen_append (a b : List Char) : byteLen (a ++ b) = byteLen a + byteLen b := by
  simp [byteLen]

theorem one_le_utf8Size (c : Char) : 1 ≤ c.utf8Size := by
  simp only [Char.utf8Size]
  split <;> first | omega | split <;> first | omega | split <;> omega

theorem length_le_byteLen (l : List Char) : l.length ≤ byteLen l := by
  induction l with
  | nil => simp [byteLen]
  | cons c cs ih =>
    have h1 := one_le_utf8Size c
    simp only [byteLen, List.map_cons, List.sum_cons, List.length_cons] at *
    omega

theorem ambiguousGo_byteLen (lines : List (List Char)) :
    ∀ msg out, byteLen msg ≤ 280 → ambiguousGo lines msg = .ok out → byteLen out ≤ 280 := by
  induction lines with
  | nil =>
    intro msg out h he
    simp only [ambiguousGo] at he
    cases he
    exact h
  | cons l ls ih =>
    intro msg out h he
    simp only [ambiguousGo] at he
    cases hmc : matchCandidate l with
    | none => simp [hmc] at he
    | some p =>
      obtain ⟨g1, g2⟩ := p
      simp only [hmc] at he
      by_cases hle : byteLen msg + byteLen (candLine g1 g2) ≤ 280
      · rw [if_pos hle] at he
        exact ih _ _ (by rw [byteLen_append]; omega) he
      · rw [if_neg hle] at he
        exact ih _ _ h he

theorem ambiguousGo_shape (lines : List (List Char)) :
    ∀ msg out, ambiguousGo lines msg = .ok out →
      ∃ add : List (List Char), out = msg ++ add.flatten ∧
        ∀ c ∈ add, ∃ l ∈ lines, ∃ g1 g2, matchCandidate l = some (g1, g2) ∧ c = candLine g1 g2 := by
  induction lines with
  | nil =>
    intro msg out he
    simp only [ambiguousGo] at he
    cases he
    exact ⟨[], by simp, by simp⟩
  | cons l ls ih =>
    intro msg out he
    simp only [ambiguousGo] at he
    cases hmc : matchCandidate l with
    | none => simp [hmc] at he
    | some p =>
      obtain ⟨g1, g2⟩ := p
      simp only [hmc] at he
      by_cases hle : byteLen msg + byteLen (candLine g1 g2) ≤ 280
      · rw [if_pos hle] at he
        obtain ⟨add, hout, hsrc⟩ := ih _ _ he
        refine ⟨candLine g1 g2 :: add, by simp [hout], ?_⟩
        intro c hc
        rcases List.mem_cons.mp hc with hc | hc
        · exact ⟨l, List.mem_cons_self l ls, g1, g2, hmc, hc⟩
        · obtain ⟨l2, hl2, g3, g4, hm2, hc2⟩ := hsrc c hc
          exact ⟨l2, List.mem_cons_of_mem _ hl2, g3, g4, hm2, hc2⟩
      · rw [if_neg hle] at he
        obtain ⟨add, hout, hsrc⟩ := ih _ _ he
        refine ⟨add, hout, ?_⟩
        intro c hc
        obtain ⟨l2, hl2, g3, g4, hm2, hc2⟩ := hsrc c hc
        exact ⟨l2, List.mem_cons_of_mem _ hl2, g3, g4, hm2, hc2⟩

/-- C5: For an exit-2 stdout whose lines all match the candidate pattern,
the reply is the header `"Pick a number:\n"` followed by formatted
`"<id>: <label>\n"` lines, it never exceeds 280 (bytes, hence also
characters), every included line stems from a matched candidate line, and
an oversized line is dropped whole while later lines can still be added
(last conjunct: the 34-byte second candidate is skipped at 259 accumulated
bytes, yet the 5-byte third candidate is still appended). -/
theorem c5_ambiguous_reply_bounded :
    (∀ (t : TweetIn) (g : GatewayOut) (msg : List Char),
        g.code = some 2 → buildEvent t g = .ok (.reply msg) →
        ambiguousMessage (rustLines (rustTrim g.stdout)) = .ok msg)
    ∧ (∀ (lines : List (List Char)) (msg : List Char),
        ambiguousMessage lines = .ok msg → byteLen msg ≤ 280 ∧ msg.length ≤ 280)
    ∧ (∀ (lines : List (List Char)) (msg : List Char),
        ambiguousMessage lines = .ok msg →
        ∃ included : List (List Char), msg = pickHeader ++ included.flatten ∧
          ∀ c ∈ included, ∃ l ∈ lines, ∃ g1 g2,
            matchCandidate l = some (g1, g2) ∧ c = candLine g1 g2)
    ∧ ambiguousMessage [c5Line1, c5Line2, c5Line3] =
        .ok (pickHeader ++ (candLine (['1']) (List.replicate 240 'a') ++ candLine (['3']) (['c']))) := by
  refine ⟨?_, ?_, ?_, ?_⟩
  · intro t g msg h2 hb
    simp only [buildEvent, h2] at hb
    norm_num at hb
    cases ha : ambiguousMessage (rustLines (rustTrim g.stdout)) with
    | error e => rw [ha] at hb; cases hb
    | ok m => rw [ha] at hb; cases hb; rfl
  · intro lines msg he
    have hb := ambiguousGo_byteLen lines pickHeader msg (by decide) he
    exact ⟨hb, le_trans (length_le_byteLen msg) hb⟩
  · intro lines msg he
    exact ambiguousGo_shape lines pickHeader msg he
  · decide

/-- Witness for `c5_ambiguous_reply_bounded`: its universally quantified
parts applied at a concrete exit-2 stdout `"1 Mars ("`. -/
theorem c5_ambiguous_reply_bounded_witness :
    ambiguousMessage (rustLines (rustTrim g5.stdout)) = .ok ("Pick a number:\n1: Mars\n".data)
    ∧ (byteLen ("Pick a number:\n1: Mars\n".data) ≤ 280
      ∧ ("Pick a number:\n1: Mars\n".data).length ≤ 280)
    ∧ (∃ included : List (List Char),
        ("Pick a number:\n1: Mars\n".data) = pickHeader ++ included.flatten ∧
          ∀ c ∈ included, ∃ l ∈ [("1 Mars (".data)], ∃ g1 g2,
            matchCandidate l = some (g1, g2) ∧ c = candLine g1 g2) :=
  ⟨c5_ambiguous_reply_bounded.1 t5 g5 ("Pick a number:\n1: Mars\n".data) rfl (by decide),
   c5_ambiguous_reply_bounded.2.1 [("1 Mars (".data)] ("Pick a number:\n1: Mars\n".data) (by decide),
   c5_ambiguous_reply_bounded.2.2.1 [("1 Mars (".data)] ("Pick a number:\n1: Mars\n".data) (by decide)⟩

/-- C10: the 280 cutoff is taken on UTF-8 byte lengths, not character
counts.  Concretely, with a first candidate carrying 130 two-byte
characters, the second candidate `"2: x\n"` is dropped because the byte
total would be 284 > 280, even though the character total (154) is well
within 280. -/
theorem c10_byte_length_limit :
    ambiguousMessage [c10Line1, c10Line2] =
        .ok (pickHeader ++ candLine (['1']) (List.replicate 130 'é'))
    ∧ 280 < byteLen (pickHeader ++ candLine (['1']) (List.replicate 130 'é'))
        + byteLen (candLine (['2']) (['x']))
    ∧ (pickHeader ++ candLine (['1']) (List.replicate 130 'é')).length
        + (candLine (['2']) (['x'])).length ≤ 280 := by
  decide

/-! ### C3: the hours tier of the reply format -/

theorem getLast?_append_ne_nil {l2 : List Char} (l1 : List Char) (h : l2 ≠ []) :
    (l1 ++ l2).getLast? = l2.getLast? :=
  List.getLast?_append_of_ne_nil l1 h

/-- C3: the hours tier is unreachable.  The code computes
`min = (r as u32 / 60) % 60`, which is always `< 60`, so the
`else if min < 60` arm always fires first and no value of `round_trip`
is ever formatted as `"{h}h {m}m"` for any `h`, `m` — every produced
message ends in `'s'`.
In particular 46920 s (13 h 2 min, one of the outputs promised by the
source's own comment) is formatted as `"Round trip time: 2m 0.0s"`. -/
theorem c3_hours_tier_unreachable :
    (∀ (r : Frac) (h m : Nat), formatReply r ≠ hoursTierFormat h m)
    ∧ formatReply (Frac.ofInt 46920) = ("Round trip time: 2m 0.0s".data) := by
  constructor
  · intro r hv mv h
    have hm : r.toU32 / 60 % 60 < 60 := Nat.mod_lt _ (by omega)
    have hlast : (hoursTierFormat hv mv).getLast? = some 'm' := by
      unfold hoursTierFormat
      rw [getLast?_append_ne_nil _ (by decide)]
      rfl
    have hlast2 : (formatReply r).getLast? = some 's' := by
      simp only [formatReply]
      split_ifs with h1 h2 h3 h4 <;>
        · rw [getLast?_append_ne_nil _ (by decide)]
          rfl
    rw [h, hlast] at hlast2
    simp at hlast2
  · decide

/-! ### C8: the worked scenario of the spec -/

/-- C8 counterexample: on the claimed scenario input the classifier output
is as claimed, but the deferred reply is formatted `"Round trip time: 9m
0.0s"` (the `{:.1}` seconds format), not `"Round trip time: 9m 0s"`. -/
theorem c8_scenario_reply_differs :
    buildEvent t8 g8 =
      .ok (.record ⟨7, ("mars".data), false, mkDT 2020 1 1 0 9 0, ⟨5400, 10⟩⟩)
    ∧ formatReply ⟨5400, 10⟩ ≠ ("Round trip time: 9m 0s".data) := by
  decide

/-- C8 amended: exit 0 with stdout `"foo bar 4.5\n"` at 2020-01-01 00:00:00
yields `round_trip` = 540 s, deadline 2020-01-01 00:09:00, and the deferred
reply `"Round trip time: 9m 0.0s"`. -/
theorem c8_scenario :
    buildEvent t8 g8 =
      .ok (.record ⟨7, ("mars".data), false, mkDT 2020 1 1 0 9 0, ⟨5400, 10⟩⟩)
    ∧ Frac.valEq ⟨5400, 10⟩ (Frac.ofInt 540)
    ∧ mkDT 2020 1 1 0 9 0 = mkDT 2020 1 1 0 0 0 + 540 * 1000
    ∧ formatReply ⟨5400, 10⟩ = ("Round trip time: 9m 0.0s".data) := by
  decide

/-! ### C4: millisecond conversion of the round-trip delay -/

/-- C4 counterexample: for distance 0.0078125 light-minutes the delay is
937.5 ms; the stored deadline adds 937 (`as i64` truncates toward zero),
not the 938 that rounding to the nearest millisecond would give. -/
theorem c4_truncation_not_rounding :
    buildEvent t4 g4 = .ok (.record ⟨7, ("io".data), false, 937, ⟨9375000, 10000000⟩⟩)
    ∧ Frac.roundNearest ((⟨9375000, 10000000⟩ : Frac).mul (Frac.ofInt 1000)) = 938
    ∧ (937 : Int) ≠ 0 + 938 := by
  decide

/-- C4 amended: for every resolved distance, the stored deadline is the
message creation time plus the round-trip delay in milliseconds truncated
toward zero (saturating at the `i64` range), and the stored round-trip
seconds value is exactly distance × 120. -/
theorem c4_deadline_truncated_ms (t : TweetIn) (g : GatewayOut) (f : EventForm) (dist : Frac)
    (h0 : g.code = some 0)
    (hd : exit0Distance g.stdout = some dist)
    (hb : buildEvent t g = .ok (.record f)) :
    f.round_trip.valEq ⟨dist.num * 120, dist.den⟩
    ∧ f.deadline = t.created_at + Frac.toI64 ⟨dist.num * 120 * 1000, dist.den⟩ := by
  unfold exit0Distance at hd
  unfold buildEvent at hb
  rw [h0, if_pos rfl] at hb
  cases hline : (rustLines (rustTrim g.stdout)).head? with
  | none => simp [hline] at hd
  | some line =>
    simp only [hline, Option.bind] at hd
    simp only [hline] at hb
    cases htok : (splitWhitespaceL line)[2]? with
    | none => simp [htok] at hd
    | some tok =>
      simp only [htok, Option.bind] at hd
      simp only [htok] at hb
      cases hp : parseF64 tok with
      | none => simp [hp] at hd
      | some dq =>
        simp only [hp, Option.some.injEq] at hd
        simp only [hp] at hb
        subst hd
        simp only [Except.ok.injEq, Response.record.injEq] at hb
        subst hb
        have harg : ((dq.mul (Frac.ofInt 60)).mul (Frac.ofInt 2)).mul (Frac.ofInt 1000)
            = (⟨dq.num * 120 * 1000, dq.den⟩ : Frac) := by
          simp only [Frac.mul, Frac.ofInt, Frac.mk.injEq]
          constructor
          · ring
          · simp
        constructor
        · simp only [Frac.valEq, Frac.mul, Frac.ofInt]
          push_cast
          ring
        · rw [harg]

/-! ### Equation lemmas for the sweep loop -/

theorem sweepGo_nil (pf uf : Int → Bool) (s : Store) : sweepGo pf uf [] s = ⟨s, [], false⟩ := rfl

theorem sweepGo_cons_pf (pf uf : Int → Bool) (d : Event) (rest : List Event) (s : Store)
    (h : pf d.id = true) : sweepGo pf uf (d :: rest) s = sweepGo pf uf rest s := by
  simp [sweepGo, h]

theorem sweepGo_cons_uf (pf uf : Int → Bool) (d : Event) (rest : List Event) (s : Store)
    (h1 : pf d.id = false) (h2 : uf d.id = true) :
    sweepGo pf uf (d :: rest) s = ⟨s, [(i64AsU64 d.tweet_id, formatReply d.round_trip)], true⟩ := by
  simp [sweepGo, h1, h2]

theorem sweepGo_cons_ok (pf uf : Int → Bool) (d : Event) (rest : List Event) (s : Store)
    (h1 : pf d.id = false) (h2 : uf d.id = false) :
    sweepGo pf uf (d :: rest) s =
      ⟨(sweepGo pf uf rest (updateReplied s d.id)).store,
       (i64AsU64 d.tweet_id, formatReply d.round_trip)
         :: (sweepGo pf uf rest (updateReplied s d.id)).posts,
       (sweepGo pf uf rest (updateReplied s d.id)).errored⟩ := by
  simp [sweepGo, h1, h2]

theorem updateReplied_events (s : Store) (eid : Int) :
    (updateReplied s eid).events
      = s.events.map fun e => if e.id = eid then { e with replied := true } else e := rfl

/-! ### Preservation lemmas for the sweep -/

theorem sweepGo_pres (pf uf : Int → Bool) :
    ∀ (l : List Event) (s : Store), ∀ e ∈ s.events,
      ∃ e' ∈ (sweepGo pf uf l s).store.events,
        e'.id = e.id ∧
          (e'.replied = e.replied ∨
            (e'.replied = true ∧ e.id ∈ l.map Event.id ∧ pf e.id = false)) := by
  intro l
  induction l with
  | nil =>
    intro s e he
    exact ⟨e, he, rfl, Or.inl rfl⟩
  | cons d rest ih =>
    intro s e he
    by_cases hpf : pf d.id = true
    · rw [sweepGo_cons_pf pf uf d rest s hpf]
      obtain ⟨e', he', h1, h2⟩ := ih s e he
      refine ⟨e', he', h1, ?_⟩
      rcases h2 with h2 | ⟨h2a, h2b, h2c⟩
      · exact Or.inl h2
      · exact Or.inr ⟨h2a, by simp only [List.map_cons]; exact List.mem_cons_of_mem _ h2b, h2c⟩
    · rw [Bool.not_eq_true] at hpf
      by_cases huf : uf d.id = true
      · rw [sweepGo_cons_uf pf uf d rest s hpf huf]
        exact ⟨e, he, rfl, Or.inl rfl⟩
      · rw [Bool.not_eq_true] at huf
        rw [sweepGo_cons_ok pf uf d rest s hpf huf]
        have he2 : (if e.id = d.id then { e with replied := true } else e)
            ∈ (updateReplied s d.id).events := by
          rw [updateReplied_events]
          exact List.mem_map_of_mem _ he
        obtain ⟨e', he', h1, h2⟩ := ih (updateReplied s d.id) _ he2
        by_cases hid : e.id = d.id
        · rw [if_pos hid] at h1 h2
          refine ⟨e', he', by simpa using h1, ?_⟩
          have hrep : e'.replied = true := by
            rcases h2 with h2 | ⟨h2a, _, _⟩
            · simpa using h2
            · exact h2a
          cases hrold : e.replied with
          | true => exact Or.inl hrep
          | false =>
            refine Or.inr ⟨hrep, ?_, by rw [hid]; exact hpf⟩
            simp only [List.map_cons]
            exact hid ▸ List.mem_cons_self _ _
        · rw [if_neg hid] at h1 h2
          refine ⟨e', he', h1, ?_⟩
          rcases h2 with h2 | ⟨h2a, h2b, h2c⟩
          · exact Or.inl h2
          · exact Or.inr ⟨h2a, by simp only [List.map_cons]; exact List.mem_cons_of_mem _ h2b, h2c⟩

theorem sweepGo_src (pf uf : Int → Bool) :
    ∀ (l : List Event) (s : Store), ∀ e' ∈ (sweepGo pf uf l s).store.events,
      ∃ e ∈ s.events, e' = e ∨ e' = { e with replied := true } := by
  intro l
  induction l with
  | nil =>
    intro s e' he'
    exact ⟨e', he', Or.inl rfl⟩
  | cons d rest ih =>
    intro s e' he'
    by_cases hpf : pf d.id = true
    · rw [sweepGo_cons_pf pf uf d rest s hpf] at he'
      exact ih s e' he'
    · rw [Bool.not_eq_true] at hpf
      by_cases huf : uf d.id = true
      · rw [sweepGo_cons_uf pf uf d rest s hpf huf] at he'
        exact ⟨e', he', Or.inl rfl⟩
      · rw [Bool.not_eq_true] at huf
        rw [sweepGo_cons_ok pf uf d rest s hpf huf] at he'
        obtain ⟨e2, he2, hcase⟩ := ih (updateReplied s d.id) e' he'
        rw [updateReplied_events] at he2
        obtain ⟨e, hmem, hfe⟩ := List.mem_map.mp he2
        refine ⟨e, hmem, ?_⟩
        by_cases hid : e.id = d.id
        · rw [if_pos hid] at hfe
          rcases hcase with h | h
          · exact Or.inr (by rw [h, ← hfe])
          · exact Or.inr (by rw [h, ← hfe])
        · rw [if_neg hid] at hfe
          rw [← hfe] at hcase
          exact hcase

theorem sweepGo_frame (pf uf : Int → Bool) :
    ∀ (l : List Event) (s : Store),
      (sweepGo pf uf l s).store.events.length = s.events.length ∧
      (sweepGo pf uf l s).store.ignored = s.ignored ∧
      (sweepGo pf uf l s).store.nextId = s.nextId := by
  intro l
  induction l with
  | nil => intro s; exact ⟨rfl, rfl, rfl⟩
  | cons d rest ih =>
    intro s
    by_cases hpf : pf d.id = true
    · rw [sweepGo_cons_pf pf uf d rest s hpf]
      exact ih s
    · rw [Bool.not_eq_true] at hpf
      by_cases huf : uf d.id = true
      · rw [sweepGo_cons_uf pf uf d rest s hpf huf]
        exact ⟨rfl, rfl, rfl⟩
      · rw [Bool.not_eq_true] at huf
        rw [sweepGo_cons_ok pf uf d rest s hpf huf]
        obtain ⟨ih1, ih2, ih3⟩ := ih (updateReplied s d.id)
        refine ⟨?_, ih2, ih3⟩
        rw [ih1, updateReplied_events, List.length_map]

/-! ### Preservation lemmas for the mention pass -/

theorem buildEvent_record_replied (t : TweetIn) (g : GatewayOut) (f : EventForm)
    (h : buildEvent t g = .ok (.record f)) : f.replied = false := by
  unfold buildEvent at h
  by_cases h0 : g.code = some 0
  · rw [if_pos h0] at h
    cases hline : (rustLines (rustTrim g.stdout)).head? with
    | none => simp [hline] at h
    | some line =>
      simp only [hline] at h
      cases htok : (splitWhitespaceL line)[2]? with
      | none => simp [htok] at h
      | some tok =>
        simp only [htok] at h
        cases hp : parseF64 tok with
        | none => simp [hp] at h
        | some dq =>
          simp only [hp, Except.ok.injEq, Response.record.injEq] at h
          rw [← h]
  · rw [if_neg h0] at h
    by_cases h1 : g.code = some 1
    · rw [if_pos h1] at h
      simp at h
    · rw [if_neg h1] at h
      by_cases h2 : g.code = some 2
      · rw [if_pos h2] at h
        cases ha : ambiguousMessage (rustLines (rustTrim g.stdout)) with
        | error e => simp [ha] at h
        | ok msg => simp [ha] at h
      · rw [if_neg h2] at h
        simp at h

theorem processTweet_events (s : Store) (m : MentionInput) :
    ∃ tl, (processTweet s m).1.events = s.events ++ tl ∧ ∀ e ∈ tl, e.replied = false := by
  unfold processTweet
  cases hg : m.gateway with
  | error e => exact ⟨[], by simp, by simp⟩
  | ok g =>
    cases hb : buildEvent m.tweet g with
    | error e => exact ⟨[], by simp [hb], by simp⟩
    | ok r =>
      cases r with
      | record f =>
        by_cases hins : m.insertFails = true
        · exact ⟨[], by simp [hb, hins], by simp⟩
        · rw [Bool.not_eq_true] at hins
          refine ⟨[{ id := s.nextId, tweet_id := f.tweet_id, celestial_body := f.celestial_body, replied := f.replied, deadline := f.deadline, round_trip := f.round_trip }], by simp [hb, hins, insertEvent], ?_⟩
          intro e hme
          rcases List.mem_singleton.mp hme with rfl
          exact buildEvent_record_replied m.tweet g f hb
      | reply msg =>
        by_cases hl : m.lookupFails = true
        · exact ⟨[], by simp [hb, hl], by simp⟩
        · by_cases hig : isIgnored s m.tweet.id = true
          · exact ⟨[], by simp [hb, hl, hig], by simp⟩
          · by_cases hpo : m.postFails = true
            · exact ⟨[], by simp [hb, hl, hig, hpo], by simp⟩
            · exact ⟨[], by by_cases hmk : m.markFails = true <;> simp [hb, hl, hig, hpo, hmk, markIgnored], by simp⟩

theorem processNM_events : ∀ (ms : List MentionInput) (s : Store),
    ∃ tl, (processNewMentions s ms).1.events = s.events ++ tl ∧ ∀ e ∈ tl, e.replied = false := by
  intro ms
  induction ms with
  | nil => intro s; exact ⟨[], by simp [processNewMentions], by simp⟩
  | cons m rest ih =>
    intro s
    obtain ⟨t1, h1, h1f⟩ := processTweet_events s m
    obtain ⟨t2, h2, h2f⟩ := ih (processTweet s m).1
    refine ⟨t1 ++ t2, ?_, ?_⟩
    · show (processNewMentions (processTweet s m).1 rest).1.events = _
      rw [h2, h1, List.append_assoc]
    · intro e hme
      rcases List.mem_append.mp hme with hme | hme
      · exact h1f e hme
      · exact h2f e hme

/-! ### C1: lifecycle of the `replied` flag -/

/-- C1: along both operations of the system, (i) in a sweep an existing
event keeps its id, and its `replied` flag either is unchanged or flips to
`true`; a false→true flip happens only for an event whose deadline was
before the invocation time and whose reply post succeeded (`pf e.id =
false`); (ii) every row after a sweep is an original row with at most
`replied` switched to `true` (so `replied` is never reset to `false` and
no other field changes); (iii) the mention pass only appends rows, and
every appended row starts with `replied = false`. -/
theorem c1_replied_lifecycle :
    (∀ (s : Store) (now : Int) (pf uf : Int → Bool),
        (s.events.map Event.id).Nodup →
        ∀ e ∈ s.events,
          ∃ e' ∈ (sendReplies s now pf uf).store.events,
            e'.id = e.id ∧
            (e.replied = true → e'.replied = true) ∧
            (e.replied = false → e'.replied = true → e.deadline < now ∧ pf e.id = false))
    ∧ (∀ (s : Store) (now : Int) (pf uf : Int → Bool),
        ∀ e' ∈ (sendReplies s now pf uf).store.events,
          ∃ e ∈ s.events, e' = e ∨ e' = { e with replied := true })
    ∧ (∀ (s : Store) (ms : List MentionInput),
        ∃ tl, (processNewMentions s ms).1.events = s.events ++ tl ∧
          ∀ e ∈ tl, e.replied = false) := by
  refine ⟨?_, ?_, fun s ms => processNM_events ms s⟩
  · intro s now pf uf hnd e he
    obtain ⟨e', he', h1, h2⟩ := sweepGo_pres pf uf (dueEvents s now) s e he
    refine ⟨e', he', h1, ?_, ?_⟩
    · intro hr
      rcases h2 with h2 | ⟨h2a, _, _⟩
      · rw [h2, hr]
      · exact h2a
    · intro hf hr
      rcases h2 with h2 | ⟨_, h2b, h2c⟩
      · rw [hr, hf] at h2
        cases h2
      · obtain ⟨d, hd, hdid⟩ := List.mem_map.mp h2b
        obtain ⟨hdmem, hdpred⟩ := List.mem_filter.mp hd
        have hde : d = e := List.inj_on_of_nodup_map hnd hdmem he hdid
        refine ⟨?_, h2c⟩
        have hdp : d.replied = false ∧ d.deadline < now := by
          simpa [dueEvents] using hdpred
        rw [← hde]
        exact hdp.2
  · intro s now pf uf e' he'
    exact sweepGo_src pf uf (dueEvents s now) s e' he'

/-- Witness for `c1_replied_lifecycle` at a concrete one-event store. -/
theorem c1_replied_lifecycle_witness :
    (∃ e' ∈ (sendReplies wStore 5 (fun _ => false) (fun _ => false)).store.events,
      e'.id = wEvent.id ∧
      (wEvent.replied = true → e'.replied = true) ∧
      (wEvent.replied = false → e'.replied = true →
        wEvent.deadline < 5 ∧ (fun _ : Int => false) wEvent.id = false))
    ∧ (∃ e ∈ wStore.events,
        (⟨1, 101, ("mars".data), true, 0, Frac.ofInt 540⟩ : Event) = e ∨
        (⟨1, 101, ("mars".data), true, 0, Frac.ofInt 540⟩ : Event) = { e with replied := true })
    ∧ (∃ tl, (processNewMentions wStore []).1.events = wStore.events ++ tl ∧
        ∀ e ∈ tl, e.replied = false) :=
  ⟨c1_replied_lifecycle.1 wStore 5 (fun _ => false) (fun _ => false) (by decide) wEvent
      (by decide),
   c1_replied_lifecycle.2.1 wStore 5 (fun _ => false) (fun _ => false)
      ⟨1, 101, ("mars".data), true, 0, Frac.ofInt 540⟩ (by decide),
   c1_replied_lifecycle.2.2 wStore []⟩

/-! ### C9: the replied update touches nothing else -/

/-- C9: the update `diesel::update(events.filter(id.eq(eid)))
.set(replied.eq(true))` keeps the `ignored` table, the id counter, and the
number of rows; positionally each row keeps `id`, `tweet_id`,
`celestial_body`, `deadline` and `round_trip`; a row whose id differs from
`eid` keeps `replied` too, and the row with id `eid` gets `replied =
true`.  Moreover the whole sweep never changes row count, the `ignored`
table, or the id counter. -/
theorem c9_update_modifies_only_replied :
    (∀ (s : Store) (eid : Int),
      (updateReplied s eid).ignored = s.ignored ∧
      (updateReplied s eid).nextId = s.nextId ∧
      (updateReplied s eid).events.length = s.events.length ∧
      ∀ (i : Nat) (h : i < s.events.length) (h' : i < (updateReplied s eid).events.length),
        ((updateReplied s eid).events.get ⟨i, h'⟩).id = (s.events.get ⟨i, h⟩).id ∧
        ((updateReplied s eid).events.get ⟨i, h'⟩).tweet_id = (s.events.get ⟨i, h⟩).tweet_id ∧
        ((updateReplied s eid).events.get ⟨i, h'⟩).celestial_body
            = (s.events.get ⟨i, h⟩).celestial_body ∧
        ((updateReplied s eid).events.get ⟨i, h'⟩).deadline = (s.events.get ⟨i, h⟩).deadline ∧
        ((updateReplied s eid).events.get ⟨i, h'⟩).round_trip = (s.events.get ⟨i, h⟩).round_trip ∧
        ((s.events.get ⟨i, h⟩).id ≠ eid →
          ((updateReplied s eid).events.get ⟨i, h'⟩).replied = (s.events.get ⟨i, h⟩).replied) ∧
        ((s.events.get ⟨i, h⟩).id = eid →
          ((updateReplied s eid).events.get ⟨i, h'⟩).replied = true))
    ∧ (∀ (s : Store) (now : Int) (pf uf : Int → Bool),
        (sendReplies s now pf uf).store.events.length = s.events.length ∧
        (sendReplies s now pf uf).store.ignored = s.ignored ∧
        (sendReplies s now pf uf).store.nextId = s.nextId) := by
  constructor
  · intro s eid
    refine ⟨rfl, rfl, by simp [updateReplied], ?_⟩
    intro i h h'
    simp only [List.get_eq_getElem, updateReplied_events, List.getElem_map]
    by_cases hid : s.events[i].id = eid
    · simp [hid]
    · simp [hid]
  · intro s now pf uf
    exact sweepGo_frame pf uf (dueEvents s now) s

/-- Witness for `c9_update_modifies_only_replied` at a one-row store. -/
theorem c9_update_modifies_only_replied_witness :
    (updateReplied s9 1).ignored = s9.ignored ∧
    ((updateReplied s9 1).events.get ⟨0, by decide⟩).round_trip
        = (s9.events.get ⟨0, by decide⟩).round_trip ∧
    ((s9.events.get ⟨0, by decide⟩).id = 1 →
      ((updateReplied s9 1).events.get ⟨0, by decide⟩).replied = true) ∧
    (sendReplies s9 5 (fun _ => false) (fun _ => false)).store.ignored = s9.ignored :=
  ⟨(c9_update_modifies_only_replied.1 s9 1).1,
   ((c9_update_modifies_only_replied.1 s9 1).2.2.2 0 (by decide) (by decide)).2.2.2.2.1,
   ((c9_update_modifies_only_replied.1 s9 1).2.2.2 0 (by decide) (by decide)).2.2.2.2.2.2,
   (c9_update_modifies_only_replied.2 s9 5 (fun _ => false) (fun _ => false)).2.1⟩

/-! ### C7: dedup-guard lookup failure on the reply path -/

/-- C7: when `build_event` classified a mention as needing an immediate
reply and the dedup-guard lookup errors
(`is_tweet_ignored(..).unwrap_or(true)`), the mention is treated as
already ignored: no reply is posted and the store is untouched. -/
theorem c7_lookup_error_suppresses_reply (s : Store) (m : MentionInput) (g : GatewayOut)
    (msg : List Char) (hg : m.gateway = .ok g) (hb : buildEvent m.tweet g = .ok (.reply msg))
    (hl : m.lookupFails = true) :
    processTweet s m = (s, []) := by
  unfold processTweet
  rw [hg]
  simp [hb, hl]

/-- Witness for `c7_lookup_error_suppresses_reply`: an exit-1 mention whose
guard lookup fails yields no post and no store change. -/
theorem c7_lookup_error_suppresses_reply_witness :
    processTweet c7Store c7Mention = (c7Store, []) :=
  c7_lookup_error_suppresses_reply c7Store c7Mention ⟨some 1, []⟩ unrecognizedReply rfl
    (by decide) rfl

/-! ### C6: store-write failures during a batch -/

/-- C6 counterexample: with two due events and a store-update failure on
the first (both posts would succeed), the sweep posts only to the first
event, errors out, and leaves the store unchanged — the second due event
of the batch is never processed, contradicting the claim that a store
write failure never aborts the batch. -/
theorem c6_update_failure_aborts_sweep :
    (sendReplies s6 10 (fun _ => false) uf6).errored = true ∧
    (sendReplies s6 10 (fun _ => false) uf6).posts = [(101, formatReply (Frac.ofInt 100))] ∧
    (sendReplies s6 10 (fun _ => false) uf6).store = s6 := by
  decide

/-- C6 amended: (i) a failed insert of a new pending event is tolerated —
the mention is dropped, the store is unchanged, and the remaining mentions
of the batch are processed exactly as if that mention were absent; but
(ii) a failed `replied` update after a successful post propagates (`?`):
the sweep records that last post, stops with an error, and the due events
after the failing one are not processed in that invocation. -/
theorem c6_insert_tolerated_update_aborts :
    (∀ (s : Store) (m : MentionInput) (ms : List MentionInput) (g : GatewayOut) (f : EventForm),
        m.gateway = .ok g → buildEvent m.tweet g = .ok (.record f) → m.insertFails = true →
        processNewMentions s (m :: ms) = processNewMentions s ms)
    ∧ (∀ (pf uf : Int → Bool) (l1 : List Event) (d : Event) (l2 : List Event) (s : Store),
        (∀ x ∈ l1, pf x.id = true ∨ uf x.id = false) →
        pf d.id = false → uf d.id = true →
        (sweepGo pf uf (l1 ++ d :: l2) s).errored = true ∧
        (sweepGo pf uf (l1 ++ d :: l2) s).posts
          = (sweepGo pf uf l1 s).posts ++ [(i64AsU64 d.tweet_id, formatReply d.round_trip)] ∧
        (sweepGo pf uf (l1 ++ d :: l2) s).store = (sweepGo pf uf l1 s).store) := by
  constructor
  · intro s m ms g f hg hb hins
    have hpt : processTweet s m = (s, []) := by
      unfold processTweet
      rw [hg]
      simp [hb, hins]
    show ((processNewMentions (processTweet s m).1 ms).1,
        (processTweet s m).2 ++ (processNewMentions (processTweet s m).1 ms).2)
      = processNewMentions s ms
    rw [hpt]
    simp
  · intro pf uf l1
    induction l1 with
    | nil =>
      intro d l2 s hall hpf huf
      rw [List.nil_append, sweepGo_cons_uf pf uf d l2 s hpf huf, sweepGo_nil]
      exact ⟨rfl, by simp, rfl⟩
    | cons x l1 ih =>
      intro d l2 s hall hpf huf
      have hx := hall x (List.mem_cons_self x l1)
      have hall2 : ∀ y ∈ l1, pf y.id = true ∨ uf y.id = false := fun y hy =>
        hall y (List.mem_cons_of_mem _ hy)
      by_cases hxpf : pf x.id = true
      · rw [List.cons_append, sweepGo_cons_pf pf uf x _ s hxpf,
          sweepGo_cons_pf pf uf x l1 s hxpf]
        exact ih d l2 s hall2 hpf huf
      · rw [Bool.not_eq_true] at hxpf
        have hxu : uf x.id = false := by
          rcases hx with hx | hx
          · rw [hx] at hxpf
            cases hxpf
          · exact hx
        obtain ⟨ih1, ih2, ih3⟩ := ih d l2 (updateReplied s x.id) hall2 hpf huf
        rw [List.cons_append, sweepGo_cons_ok pf uf x _ s hxpf hxu,
          sweepGo_cons_ok pf uf x l1 s hxpf hxu]
        exact ⟨ih1, by rw [List.cons_append, ih2], ih3⟩

/-- Witness for `c6_insert_tolerated_update_aborts`: both parts applied at
concrete inputs (an insert-failing resolved mention; a two-event due list
whose first update fails). -/
theorem c6_insert_tolerated_update_aborts_witness :
    processNewMentions s6 [m6] = processNewMentions s6 [] ∧
    ((sweepGo (fun _ => false) uf6 ([] ++ e61 :: [e62]) s6).errored = true ∧
      (sweepGo (fun _ => false) uf6 ([] ++ e61 :: [e62]) s6).posts
        = (sweepGo (fun _ => false) uf6 [] s6).posts
            ++ [(i64AsU64 e61.tweet_id, formatReply e61.round_trip)] ∧
      (sweepGo (fun _ => false) uf6 ([] ++ e61 :: [e62]) s6).store
        = (sweepGo (fun _ => false) uf6 [] s6).store) :=
  ⟨c6_insert_tolerated_update_aborts.1 s6 m6 [] g8
      ⟨7, ("mars".data), false, mkDT 2020 1 1 0 9 0, ⟨5400, 10⟩⟩ rfl (by decide) rfl,
   c6_insert_tolerated_update_aborts.2 (fun _ => false) uf6 [] e61 [e62] s6 (by simp) rfl
      (by decide)⟩

/-- Witness for `c4_deadline_truncated_ms` at distance 0.0078125 (an exact
binary fraction): the stored deadline is creation time plus 937 ms. -/
theorem c4_deadline_truncated_ms_witness :
    (⟨9375000, 10000000⟩ : Frac).valEq ⟨(78125 : Int) * 120, 10000000⟩
    ∧ (937 : Int) = 0 + Frac.toI64 ⟨(78125 : Int) * 120 * 1000, 10000000⟩ :=
  c4_deadline_truncated_ms t4 g4 ⟨7, ("io".data), false, 937, ⟨9375000, 10000000⟩⟩
    ⟨78125, 10000000⟩ rfl (by decide) (by decide)

end CelestialEcho
